/-
  Verification of the SafetySnap PPE detection core.

  Shallow embedding of the rule-based detection pipeline of
  `src/backend/src/detection.js` (namespace `detectionJs`) and of the
  alternate variant of the same module found in the repository
  (namespace `detectionAlt`: `limitDetectionsPerClass`, `fallbackDetection`,
  the sorting/union merger and the five-gate helmet scorer).

  Modelling conventions:
  - JavaScript numbers are modelled as exact rationals (`ℚ`).  Heuristic
    constants such as `0.3` or `height * 0.2` are therefore exact; IEEE-754
    rounding of the original is not modelled.
  - Division by zero in `ℚ` yields `0` where JavaScript would produce
    `NaN`; every comparison the pipeline performs on such a value is
    `false` in both semantics on the paths relevant here (noted inline).
  - `Math.sqrt` (used only to pick the row stride of the vest stripe
    analysis) is modelled by the integer square root, exact on the
    perfect-square block sizes the scanner produces for interior windows.
  - The `md5` digest comes from node's `crypto`, outside this repository;
    it is modelled from the spec (see `md5hex`).
-/
import Mathlib

/- The batteries rational arithmetic is sealed; the concrete witnesses and
counterexamples below evaluate the pipeline on explicit inputs, so the
arithmetic must unfold. -/
attribute [local semireducible] Rat.add Rat.mul Rat.sub Rat.inv Rat.ofScientific

/-- One RGBA pixel as read out of an `ImageData` buffer. -/
structure Pixel where
  r : ℕ
  g : ℕ
  b : ℕ
  a : ℕ
deriving DecidableEq, Repr

/-- An average colour (the `dominant` record of `analyzeColors`). -/
structure RGB where
  r : ℚ
  g : ℚ
  b : ℚ
deriving DecidableEq, Repr

/-- A bounding box `{x, y, width, height}`. -/
structure BBox where
  x : ℚ
  y : ℚ
  width : ℚ
  height : ℚ
deriving DecidableEq, Repr

/-- A detection record `{label, confidence, bbox}`; helmet and vest
detections of the dedicated scanners additionally carry a `color` field,
modelled as an `Option`. -/
structure Detection where
  label : String
  confidence : ℚ
  bbox : BBox
  color : Option String
deriving DecidableEq, Repr

/-- A decoded image: `width`, `height` and the flat RGBA byte array
(`ImageData.data`, length `width * height * 4` when well-formed). -/
structure PixelBuffer where
  width : ℕ
  height : ℕ
  data : List ℕ
deriving DecidableEq, Repr

/-- JavaScript `Math.round` on the non-negative rationals produced by the
pipeline: round half up. -/
def jsRound (q : ℚ) : ℚ := (⌊q + 1/2⌋ : ℤ)

/-- JavaScript `Math.floor` restricted to the non-negative values the
pipeline feeds it, returned as a natural number. -/
def jsFloorNat (q : ℚ) : ℕ := (⌊q⌋).toNat

/-- The index sequence of a loop `for (i = 0; i < bound; i += stride)`:
all multiples of `stride` below `bound`. -/
def stridePositions (bound stride : ℕ) : List ℕ :=
  (List.range ((bound + stride - 1) / stride)).map (· * stride)

/-- The integer square root, as an executable model of `Math.sqrt` (exact
on perfect squares — the fully covered square windows of the scanners). -/
def intSqrt (n : ℕ) : ℕ :=
  ((List.range (n + 1)).filter fun k => k * k ≤ n).length - 1

/-- Number of detections carrying a given label. -/
def countLabel (l : List Detection) (s : String) : ℕ :=
  (l.filter (fun d => d.label == s)).length

/-- Descending-by-confidence comparison used by every
`sort((a, b) => b.confidence - a.confidence)` call in the source. -/
def confGe (a b : Detection) : Prop := b.confidence ≤ a.confidence

instance : DecidableRel confGe := fun a b =>
  inferInstanceAs (Decidable (b.confidence ≤ a.confidence))

instance : IsTotal Detection confGe :=
  ⟨fun a b => (le_total b.confidence a.confidence).imp id id⟩

instance : IsTrans Detection confGe :=
  ⟨fun _ _ _ hab hbc => le_trans hbc hab⟩

/-- A stable descending sort by confidence (JavaScript `Array.prototype.sort`
is stable, as is insertion sort). -/
def sortByConfidenceDesc (l : List Detection) : List Detection :=
  l.insertionSort confGe

/-- Fuelled worker for `firstLabels` (the recursion is on a filtered tail,
so a `length`-sized fuel makes it structural and kernel-computable; the
zero-fuel case is unreachable). -/
def firstLabelsAux : ℕ → List Detection → List String
  | _, [] => []
  | 0, _ :: _ => []
  | fuel + 1, d :: rest =>
    d.label :: firstLabelsAux fuel (rest.filter (fun e => e.label != d.label))

/-- The labels of a detection list in first-occurrence order: the key order
of the `byLabel` / `grouped` objects built by the source. -/
def firstLabels (l : List Detection) : List String :=
  firstLabelsAux l.length l

namespace detectionJs

/-- detection.js `calculateOverlap`: intersection over union of two boxes,
`0` when they do not strictly overlap. -/
def calculateOverlap (bbox1 bbox2 : BBox) : ℚ :=
  let x1 := max bbox1.x bbox2.x
  let y1 := max bbox1.y bbox2.y
  let x2 := min (bbox1.x + bbox1.width) (bbox2.x + bbox2.width)
  let y2 := min (bbox1.y + bbox1.height) (bbox2.y + bbox2.height)
  if x2 ≤ x1 ∨ y2 ≤ y1 then 0
  else
    let intersection := (x2 - x1) * (y2 - y1)
    let area1 := bbox1.width * bbox1.height
    let area2 := bbox2.width * bbox2.height
    intersection / (area1 + area2 - intersection)

/-- The consumption test of the merge loop: a later candidate `e` is marked
used when its overlap with the current seed `d` strictly exceeds the
threshold and the labels agree. -/
def consumes (d : Detection) (t : ℚ) (e : Detection) : Bool :=
  decide (calculateOverlap d.bbox e.bbox > t) && (d.label == e.label)

/-- The `overlapping.reduce((best, det) => det.confidence > best.confidence ? det : best)`
step: the first candidate of maximal confidence in `d :: rest`. -/
def bestOf (d : Detection) (rest : List Detection) : Detection :=
  rest.foldl (fun best det => if det.confidence > best.confidence then det else best) d

/-- The index-and-`used`-set loop of detection.js
`mergeOverlappingDetections`, rendered as a recursion: the first unused
detection seeds a cluster consisting of itself and every later unused
detection it `consumes`; the cluster's best member is emitted and the walk
continues on the rest.  (The source's `length <= 1` early return and its
`overlapping.length > 1` branch both coincide with `bestOf` on a singleton
cluster.) -/
def mergeAux (t : ℚ) : ℕ → List Detection → List Detection
  | _, [] => []
  | 0, _ :: _ => []
  | fuel + 1, d :: rest =>
    bestOf d (rest.filter (consumes d t)) ::
      mergeAux t fuel (rest.filter (fun e => !(consumes d t e)))

/-- detection.js `mergeOverlappingDetections` proper (the recursion is on a
filtered tail, so `mergeAux` carries a `length`-sized fuel to stay
structural; the zero-fuel case is unreachable). -/
def mergeOverlappingDetections (detections : List Detection) (t : ℚ) : List Detection :=
  mergeAux t detections.length detections

/-- Fuelled worker for `clustersOf`. -/
def clustersAux (t : ℚ) : ℕ → List Detection → List (List Detection)
  | _, [] => []
  | 0, _ :: _ => []
  | fuel + 1, d :: rest =>
    (d :: rest.filter (consumes d t)) ::
      clustersAux t fuel (rest.filter (fun e => !(consumes d t e)))

/-- The clusters formed by the merge walk, in emission order: each cluster
is the seed followed by the later candidates it consumed. -/
def clustersOf (detections : List Detection) (t : ℚ) : List (List Detection) :=
  clustersAux t detections.length detections

/-- detection.js `filterAndMergeDetections`: drop confidence ≤ 0.6, group
by label in first-occurrence order, merge each group at threshold 0.3,
concatenate and sort by confidence descending. -/
def filterAndMergeDetections (detections : List Detection) : List Detection :=
  let filtered := detections.filter (fun d => decide (d.confidence > 0.6))
  let merged := (firstLabels filtered).flatMap
    (fun lab => mergeOverlappingDetections (filtered.filter (fun d => d.label == lab)) 0.3)
  sortByConfidenceDesc merged

/-- Result record of `analyzeColors`. -/
structure ColorAnalysis where
  dominant : RGB
  brightness : ℚ
deriving DecidableEq, Repr

/-- Result record of `analyzeShape`. -/
structure ShapeAnalysis where
  roundness : ℚ
  uniformity : ℚ
  edgeDensity : ℚ
deriving DecidableEq, Repr

/-- Result record of `analyzePattern`. -/
structure PatternAnalysis where
  hasReflectiveStripes : Bool
  hasHorizontalStripes : Bool
  stripeCount : ℕ
deriving DecidableEq, Repr

/-- Result record of `analyzeHelmetRegion` / `analyzeVestRegion`. -/
structure RegionScore where
  accepted : Bool
  confidence : ℚ
  color : Option String
deriving DecidableEq, Repr

/-- A row of the `PPE_COLORS` table: an inclusive RGB interval box. -/
structure ColorRange where
  rLo : ℚ
  rHi : ℚ
  gLo : ℚ
  gHi : ℚ
  bLo : ℚ
  bHi : ℚ
deriving DecidableEq, Repr

/-- A candidate rectangle produced by `findPersonRegions`. -/
structure PersonRegion where
  x : ℕ
  y : ℕ
  width : ℕ
  height : ℕ
  confidence : ℚ
deriving DecidableEq, Repr

/-- A candidate produced by `findFullBodyPPE`. -/
structure FullPPERegion where
  x : ℕ
  y : ℕ
  confidence : ℚ
  hasHeadCovering : Bool
  hasBodyCovering : Bool
  headConfidence : ℚ
  bodyConfidence : ℚ
  headBbox : BBox
  bodyBbox : BBox
deriving DecidableEq, Repr

/-- PPE_COLORS.helmet.green. -/
def helmetGreen : ColorRange := ⟨20, 120, 80, 180, 20, 100⟩
/-- PPE_COLORS.helmet.yellow. -/
def helmetYellow : ColorRange := ⟨180, 255, 180, 255, 0, 100⟩
/-- PPE_COLORS.helmet.darkBlue. -/
def helmetDarkBlue : ColorRange := ⟨0, 80, 0, 80, 80, 180⟩
/-- PPE_COLORS.helmet.orange. -/
def helmetOrange : ColorRange := ⟨200, 255, 100, 180, 0, 80⟩
/-- PPE_COLORS.vest.highVis. -/
def vestHighVis : ColorRange := ⟨150, 255, 150, 255, 0, 120⟩

/-- detection.js `isColorInRange`. -/
def isColorInRange (color : RGB) (range : ColorRange) : Bool :=
  decide (color.r ≥ range.rLo) && decide (color.r ≤ range.rHi) &&
  decide (color.g ≥ range.gLo) && decide (color.g ≤ range.gHi) &&
  decide (color.b ≥ range.bLo) && decide (color.b ≤ range.bHi)

/-- detection.js `extractImageRegion`: the pixels of the window clipped to
the image, row-major; a pixel is included only when its four bytes lie
inside the data array. -/
def extractImageRegion (data : List ℕ) (width height x y w h : ℕ) : List Pixel :=
  let endX := min (x + w) width
  let endY := min (y + h) height
  (List.range' y (endY - y)).flatMap fun py =>
    (List.range' x (endX - x)).flatMap fun px =>
      let idx := (py * width + px) * 4
      if idx + 3 < data.length then
        [⟨data.getD idx 0, data.getD (idx + 1) 0, data.getD (idx + 2) 0,
          data.getD (idx + 3) 0⟩]
      else []

/-- detection.js `analyzeColors`: rounded mean colour and mean brightness. -/
def analyzeColors (pixels : List Pixel) : ColorAnalysis :=
  if pixels.length = 0 then ⟨⟨0, 0, 0⟩, 0⟩
  else
    let count : ℚ := pixels.length
    let totalR : ℚ := (pixels.map (fun p => (p.r : ℚ))).sum
    let totalG : ℚ := (pixels.map (fun p => (p.g : ℚ))).sum
    let totalB : ℚ := (pixels.map (fun p => (p.b : ℚ))).sum
    let brightness : ℚ := (pixels.map (fun p => ((p.r : ℚ) + p.g + p.b) / 3)).sum
    ⟨⟨jsRound (totalR / count), jsRound (totalG / count), jsRound (totalB / count)⟩,
      brightness / count / 255⟩

/-- detection.js `analyzeShape`.  `0/0` (empty slice) is `0` in `ℚ` where
JavaScript yields `NaN`; both make the `>` comparison below false on the
paths reached by the pipeline. -/
def analyzeShape (pixels : List Pixel) (_blockSize : ℕ) : ShapeAnalysis :=
  let nonZero := pixels.filter (fun p => decide (p.r + p.g + p.b > 30))
  let coverage : ℚ := (nonZero.length : ℚ) / (pixels.length : ℚ)
  let centerPixels :=
    (pixels.drop (jsFloorNat ((pixels.length : ℚ) * 0.3))).take
      (jsFloorNat ((pixels.length : ℚ) * 0.7) - jsFloorNat ((pixels.length : ℚ) * 0.3))
  let centerCoverage : ℚ :=
    ((centerPixels.filter (fun p => decide (p.r + p.g + p.b > 30))).length : ℚ) /
      (centerPixels.length : ℚ)
  ⟨if centerCoverage > coverage * 0.8 then 0.8 else 0.4,
    coverage,
    if coverage > 0.6 then 0.7 else 0.3⟩

/-- detection.js `analyzePattern`.  `Math.sqrt(pixels.length)` is modelled
by the integer square root (exact for the fully covered square windows the
scanner produces); only the two stripe booleans derived here feed the
pipeline. -/
def analyzePattern (pixels : List Pixel) (_blockSize : ℕ) : PatternAnalysis :=
  let pixelsPerRow := intSqrt pixels.length
  let rows : List ℚ :=
    (stridePositions pixels.length pixelsPerRow).map fun i =>
      let row := (pixels.drop i).take pixelsPerRow
      ((row.map (fun p => ((p.r : ℚ) + p.g + p.b) / 3)).sum) / (row.length : ℚ)
  let stripePatterns :=
    ((List.range rows.length).filter fun i =>
      decide (1 ≤ i) && decide (i < rows.length - 1) &&
      decide (rows.getD i 0 > rows.getD (i - 1) 0 + 50) &&
      decide (rows.getD i 0 > rows.getD (i + 1) 0 + 50)).length
  ⟨stripePatterns ≥ 2, stripePatterns ≥ 1, stripePatterns⟩

/-- detection.js `analyzeHelmetRegion`: additive gates over colour and
shape, accepted when the raw sum exceeds 0.7, confidence capped at 0.95.
The colour loop walks the helmet table in entry order and breaks on the
first match. -/
def analyzeHelmetRegion (regionPixels : List Pixel) (blockSize : ℕ) : RegionScore :=
  if regionPixels.length = 0 then ⟨false, 0, none⟩
  else
    let colorAnalysis := analyzeColors regionPixels
    let shapeAnalysis := analyzeShape regionPixels blockSize
    let colorMatch : Option String :=
      if isColorInRange colorAnalysis.dominant helmetGreen then some "green"
      else if isColorInRange colorAnalysis.dominant helmetYellow then some "yellow"
      else if isColorInRange colorAnalysis.dominant helmetDarkBlue then some "darkBlue"
      else if isColorInRange colorAnalysis.dominant helmetOrange then some "orange"
      else none
    let c1 : ℚ := if colorMatch.isSome then 0.4 else 0
    let c2 : ℚ := if shapeAnalysis.roundness > 0.6 then c1 + 0.3 else c1
    let c3 : ℚ := if shapeAnalysis.uniformity > 0.7 then c2 + 0.2 else c2
    let c4 : ℚ := if shapeAnalysis.edgeDensity > 0.5 then c3 + 0.1 else c3
    ⟨decide (c4 > 0.7), min c4 0.95, some (colorMatch.getD "unknown")⟩

/-- detection.js `analyzeVestRegion`: additive gates over colour, stripe
pattern and brightness, accepted when the raw sum exceeds 0.65, confidence
capped at 0.95. -/
def analyzeVestRegion (regionPixels : List Pixel) (blockSize : ℕ) : RegionScore :=
  if regionPixels.length = 0 then ⟨false, 0, none⟩
  else
    let colorAnalysis := analyzeColors regionPixels
    let patternAnalysis := analyzePattern regionPixels blockSize
    let highVis := isColorInRange colorAnalysis.dominant vestHighVis
    let c1 : ℚ := if highVis then 0.4 else 0
    let c2 : ℚ := if patternAnalysis.hasReflectiveStripes then c1 + 0.3 else c1
    let c3 : ℚ := if patternAnalysis.hasHorizontalStripes then c2 + 0.2 else c2
    let c4 : ℚ := if colorAnalysis.brightness > 0.6 then c3 + 0.1 else c3
    ⟨decide (c4 > 0.65), min c4 0.95, some (if highVis then "high-vis" else "unknown")⟩

/-- detection.js `analyzeSkinTone`: the fraction of skin-toned pixels.
The `pixel.r - pixel.g > 15` test sits behind `pixel.r > pixel.g`, so
natural subtraction agrees with JavaScript arithmetic there. -/
def analyzeSkinTone (pixels : List Pixel) : ℚ :=
  if pixels.length = 0 then 0
  else
    ((pixels.filter fun p =>
        decide (p.r > 95) && decide (p.g > 40) && decide (p.b > 20) &&
        decide (p.r > p.g) && decide (p.r > p.b) && decide (p.r - p.g > 15)).length : ℚ) /
      (pixels.length : ℚ)

/-- detection.js `findPersonRegions`: 64×64 windows at stride 32 whose
skin-tone score exceeds 0.6. -/
def findPersonRegions (data : List ℕ) (width height : ℕ) : List PersonRegion :=
  (stridePositions (height - 64) 32).flatMap fun y =>
    (stridePositions (width - 64) 32).flatMap fun x =>
      let skinToneScore := analyzeSkinTone (extractImageRegion data width height x y 64 64)
      if skinToneScore > 0.6 then [⟨x, y, 64, 64, skinToneScore⟩] else []

/-- detection.js `detectPerson`: normalize every region of confidence
above 0.6 into a person detection. -/
def detectPerson (data : List ℕ) (width height : ℕ) : List Detection :=
  (findPersonRegions data width height).flatMap fun region =>
    if region.confidence > 0.6 then
      [⟨"person", region.confidence,
        ⟨(region.x : ℚ) / width, (region.y : ℚ) / height,
         (region.width : ℚ) / width, (region.height : ℚ) / height⟩, none⟩]
    else []

/-- detection.js `refineHelmetBounds` (blockSize 32: quarter-block pad,
expanded size 48, clipped to the image). -/
def refineHelmetBounds (width height x y blockSize : ℕ) : BBox :=
  let expandedSize : ℚ := jsFloorNat ((blockSize : ℚ) * 1.5)
  let startX : ℚ := max 0 ((x : ℚ) - blockSize * 0.25)
  let startY : ℚ := max 0 ((y : ℚ) - blockSize * 0.25)
  ⟨startX, startY, min expandedSize ((width : ℚ) - startX),
    min expandedSize ((height : ℚ) - startY)⟩

/-- detection.js `refineVestBounds`. -/
def refineVestBounds (width height x y blockSize : ℕ) : BBox :=
  let expandedWidth : ℚ := jsFloorNat ((blockSize : ℚ) * 1.8)
  let expandedHeight : ℚ := jsFloorNat ((blockSize : ℚ) * 1.2)
  let startX : ℚ := max 0 ((x : ℚ) - blockSize * 0.4)
  let startY : ℚ := max 0 ((y : ℚ) - blockSize * 0.1)
  ⟨startX, startY, min expandedWidth ((width : ℚ) - startX),
    min expandedHeight ((height : ℚ) - startY)⟩

/-- detection.js `detectHelmets`: scan the top half with 32×32 windows at
stride 16, keep accepted windows, merge at threshold 0.3. -/
def detectHelmets (data : List ℕ) (width height : ℕ) : List Detection :=
  let searchHeight := jsFloorNat ((height : ℚ) * 0.5)
  let candidates := (stridePositions searchHeight 16).flatMap fun y =>
    (stridePositions (width - 32) 16).flatMap fun x =>
      let score := analyzeHelmetRegion (extractImageRegion data width height x y 32 32) 32
      if score.accepted && decide (score.confidence > 0.7) then
        let rb := refineHelmetBounds width height x y 32
        [⟨"helmet", score.confidence,
          ⟨rb.x / width, rb.y / height, rb.width / width, rb.height / height⟩,
          score.color⟩]
      else []
  mergeOverlappingDetections candidates 0.3

/-- detection.js `detectVests`: scan the 20 to 80 percent height band with
48×48 windows at stride 24, keep accepted windows, merge at 0.4. -/
def detectVests (data : List ℕ) (width height : ℕ) : List Detection :=
  let searchStartY := jsFloorNat ((height : ℚ) * 0.2)
  let searchHeight := jsFloorNat ((height : ℚ) * 0.6)
  let candidates := (stridePositions searchHeight 24).flatMap fun dy =>
    (stridePositions (width - 48) 24).flatMap fun x =>
      let y := searchStartY + dy
      let score := analyzeVestRegion (extractImageRegion data width height x y 48 48) 48
      if score.accepted && decide (score.confidence > 0.65) then
        let rb := refineVestBounds width height x y 48
        [⟨"vest", score.confidence,
          ⟨rb.x / width, rb.y / height, rb.width / width, rb.height / height⟩,
          score.color⟩]
      else []
  mergeOverlappingDetections candidates 0.4

/-- detection.js `analyzeUniformity`: mean absolute colour deviation mapped
to a score in `[0, 1]`. -/
def analyzeUniformity (pixels : List Pixel) : ℚ × RGB :=
  if pixels.length = 0 then (0, ⟨0, 0, 0⟩)
  else
    let avgColor := (analyzeColors pixels).dominant
    let variance : ℚ :=
      (pixels.map fun p =>
        |(p.r : ℚ) - avgColor.r| + |(p.g : ℚ) - avgColor.g| + |(p.b : ℚ) - avgColor.b|).sum
    (max 0 (1 - variance / pixels.length / 150), avgColor)

/-- detection.js `findFullBodyPPE`: 96×96 windows at stride 48 of uniform
protective-suit colour, split into a head box (top 30 percent) and a body
box (remaining 70 percent). -/
def findFullBodyPPE (data : List ℕ) (width height : ℕ) : List FullPPERegion :=
  (stridePositions (height - 96) 48).flatMap fun y =>
    (stridePositions (width - 96) 48).flatMap fun x =>
      let u := analyzeUniformity (extractImageRegion data width height x y 96 96)
      if u.1 > 0.7 then
        let isDarkBlue := isColorInRange u.2 helmetDarkBlue
        let isLightBlue :=
          decide (u.2.b > u.2.r) && decide (u.2.b > u.2.g) && decide (u.2.b > 100)
        if isDarkBlue || isLightBlue then
          [⟨x, y, u.1,
            decide ((y : ℚ) < height * 0.3), decide ((y : ℚ) > height * 0.2),
            if (y : ℚ) < height * 0.3 then 0.8 else 0.3,
            if (y : ℚ) > height * 0.2 then 0.8 else 0.3,
            ⟨(x : ℚ) / width, (y : ℚ) / height, 96 / (width : ℚ),
              (96 * 0.3) / (height : ℚ)⟩,
            ⟨(x : ℚ) / width, ((y : ℚ) + 96 * 0.3) / height, 96 / (width : ℚ),
              (96 * 0.7) / (height : ℚ)⟩⟩]
        else []
      else []

/-- detection.js `detectFullPPE`: a full-kit region of confidence above 0.7
with both coverings decomposes into a helmet and a vest detection. -/
def detectFullPPE (data : List ℕ) (width height : ℕ) : List Detection :=
  (findFullBodyPPE data width height).flatMap fun region =>
    if decide (region.confidence > 0.7) && region.hasHeadCovering && region.hasBodyCovering then
      [⟨"helmet", region.headConfidence, region.headBbox, none⟩,
       ⟨"vest", region.bodyConfidence, region.bodyBbox, none⟩]
    else []

/-- detection.js `detectPPEObjects` (success path, after the canvas has
produced the pixel buffer): run the four class scanners in source order and
assemble. -/
def detectPPEObjects (buf : PixelBuffer) : List Detection :=
  filterAndMergeDetections
    (detectPerson buf.data buf.width buf.height ++
     detectHelmets buf.data buf.width buf.height ++
     detectVests buf.data buf.width buf.height ++
     detectFullPPE buf.data buf.width buf.height)

/-- The analysis record returned by detection.js `analyzeImageForPPE`
(detections plus summary flags). -/
structure AnalysisResult where
  hasHelmet : Bool
  hasHighVisVest : Bool
  hasFullPPE : Bool
  hasPerson : Bool
  detections : List Detection
  width : ℕ
  height : ℕ
deriving DecidableEq, Repr

/-- detection.js `analyzeImageForPPE`.  The decode step (`sharp` metadata
plus `loadImage`) is the external PixelSource; a `DecodeFailure` is the
`none` case, which the source's `catch` turns into the fixed empty result —
the image path is never consulted on that path. -/
def analyzeImageForPPE (_imagePath : String) (decoded : Option PixelBuffer) :
    AnalysisResult :=
  match decoded with
  | none => ⟨false, false, false, false, [], 800, 600⟩
  | some buf =>
    let detections := detectPPEObjects buf
    let hasHelmet := detections.any (fun d => d.label == "helmet")
    let hasVest := detections.any (fun d => d.label == "vest")
    let hasPerson := detections.any (fun d => d.label == "person")
    ⟨hasHelmet, hasVest, hasHelmet && hasVest, hasPerson, detections,
      buf.width, buf.height⟩

/-- detection.js `detectPPE` (main export): the detections of the analysis
record. -/
def detectPPE (imagePath : String) (decoded : Option PixelBuffer) : List Detection :=
  (analyzeImageForPPE imagePath decoded).detections

end detectionJs

/-- An accept/confidence pair (the alternate helmet scorer's result). -/
structure SimpleScore where
  accepted : Bool
  confidence : ℚ
deriving DecidableEq, Repr

/-- Whether `sub` occurs at the head of `cs`. -/
def headMatches : List Char → List Char → Bool
  | [], _ => true
  | _ :: _, [] => false
  | c :: cs, d :: ds => (c == d) && headMatches cs ds

/-- JavaScript `String.prototype.toLowerCase`, character-wise over the
string's characters (the filenames the fallback inspects are ASCII). -/
def jsToLowerCase (s : String) : String :=
  String.mk (s.data.map Char.toLower)

/-- JavaScript `String.prototype.includes`: substring containment. -/
def strContains (s sub : String) : Bool :=
  (List.range (s.data.length + 1)).any fun i => headMatches sub.data (s.data.drop i)

namespace detectionAlt

/-- The feature record the alternate variant's `extractRegion` hands to its
scorers (`extractRegion` returns `null` for an empty window, hence the
`Option` at use sites). -/
structure RegionData where
  pixelCount : ℕ
  avgColor : RGB
  colorVariance : ℚ
  edgeIntensity : ℚ
  roundness : ℚ
  centerY : ℚ
  imageHeight : ℚ
deriving DecidableEq, Repr

/-- Alternate variant `isValidHelmetColor`: the six safety-colour guards in
source order. -/
def isValidHelmetColor (color : RGB) : Bool :=
  (decide (color.r > 200) && decide (color.g > 200) && decide (color.b > 200)) ||
  (decide (color.r > 200) && decide (color.g > 180) && decide (color.b < 120)) ||
  (decide (color.r > 220) && decide (color.g > 140) && decide (color.g < 200) &&
    decide (color.b < 100)) ||
  (decide (color.b > 150) && decide (color.b > color.r + 40) &&
    decide (color.b > color.g + 40)) ||
  (decide (color.r > 180) && decide (color.r > color.g + 60) &&
    decide (color.r > color.b + 60)) ||
  (decide (color.g > 150) && decide (color.g > color.r + 40) &&
    decide (color.g > color.b + 40))

/-- Alternate variant `analyzeHelmetRegion`: sequential gate accumulation
(+0.4 colour, +0.3 variance below 0.3, +0.25 roundness above 0.6, +0.15
edge intensity strictly between 0.3 and 0.8, +0.1 top 40 percent),
accepted when the sum exceeds 0.7, confidence capped at 0.98. -/
def analyzeHelmetRegion (regionData : Option RegionData) : SimpleScore :=
  match regionData with
  | none => ⟨false, 0⟩
  | some rd =>
    if rd.pixelCount = 0 then ⟨false, 0⟩
    else
      let c1 : ℚ := if isValidHelmetColor rd.avgColor then 0.4 else 0
      let c2 : ℚ := if rd.colorVariance < 0.3 then c1 + 0.3 else c1
      let c3 : ℚ := if rd.roundness > 0.6 then c2 + 0.25 else c2
      let c4 : ℚ := if rd.edgeIntensity > 0.3 ∧ rd.edgeIntensity < 0.8 then c3 + 0.15 else c3
      let c5 : ℚ := if rd.centerY < rd.imageHeight * 0.4 then c4 + 0.1 else c4
      ⟨decide (c5 > 0.7), min 0.98 c5⟩

/-- Alternate variant `createMergedDetection`: union bounding box of the
cluster, confidence of the best (first, since the list is walked in sorted
order) member boosted by 0.02 and capped at 0.98. -/
def createMergedDetection (best : Detection) (rest : List Detection) : Detection :=
  let minX := (rest.map (fun d => d.bbox.x)).foldl min best.bbox.x
  let minY := (rest.map (fun d => d.bbox.y)).foldl min best.bbox.y
  let maxX := (rest.map (fun d => d.bbox.x + d.bbox.width)).foldl max
    (best.bbox.x + best.bbox.width)
  let maxY := (rest.map (fun d => d.bbox.y + d.bbox.height)).foldl max
    (best.bbox.y + best.bbox.height)
  ⟨best.label, min 0.98 (best.confidence + 0.02),
    ⟨minX, minY, maxX - minX, maxY - minY⟩, none⟩

/-- The walk of the alternate merge loop over an (already sorted) list; the
consumption test (`overlap > threshold` and equal labels, the same
`calculateOverlap` as detection.js, whose text the alternate file
duplicates) is `detectionJs.consumes`. -/
def mergeWalkAux (t : ℚ) : ℕ → List Detection → List Detection
  | _, [] => []
  | 0, _ :: _ => []
  | fuel + 1, d :: rest =>
    let consumed := rest.filter (detectionJs.consumes d t)
    (if consumed.isEmpty then d else createMergedDetection d consumed) ::
      mergeWalkAux t fuel (rest.filter (fun e => !(detectionJs.consumes d t e)))

/-- The walk proper (fuelled by the list length to stay structural). -/
def mergeWalk (detections : List Detection) (t : ℚ) : List Detection :=
  mergeWalkAux t detections.length detections

/-- Alternate variant `mergeOverlappingDetections`: sort descending by
confidence, then walk. -/
def mergeOverlappingDetections (detections : List Detection) (t : ℚ) : List Detection :=
  mergeWalk (sortByConfidenceDesc detections) t

/-- Alternate variant per-class caps: `maxPerClass[label] || 3`. -/
def capFor (label : String) : ℕ :=
  if label == "helmet" then 2
  else if label == "vest" then 2
  else if label == "person" then 1
  else 3

/-- Alternate variant `limitDetectionsPerClass`: group by label in
first-occurrence order, sort each group by confidence descending, keep the
top `capFor` entries. -/
def limitDetectionsPerClass (detections : List Detection) : List Detection :=
  (firstLabels detections).flatMap fun lab =>
    (sortByConfidenceDesc (detections.filter (fun d => d.label == lab))).take (capFor lab)

/-- Alternate variant `fallbackDetection`: filename heuristics on the
lower-cased path, with fixed pixel-space boxes (width and height are the
image dimensions reported upstream). -/
def fallbackDetection (imagePath : String) (width height : ℚ) : List Detection :=
  let filename := jsToLowerCase imagePath
  (if strContains filename "helmet" then
    [⟨"helmet", 0.75, ⟨width * 0.2, height * 0.1, width * 0.6, height * 0.4⟩, none⟩]
   else []) ++
  (if strContains filename "vest" then
    [⟨"vest", 0.75, ⟨width * 0.1, height * 0.3, width * 0.8, height * 0.5⟩, none⟩]
   else [])

end detectionAlt

/-- Modelled from the spec (§4.3, §8): the reference helmet scorer — the
confidence is the plain sum "+0.4 colour in a safety range, +0.3 colour
variance below 0.3, +0.25 roundness above 0.6, +0.15 edge intensity in
(0.3, 0.8), +0.1 region in the top 40 percent of the image", capped at
0.98, and a region is accepted exactly when this confidence exceeds 0.7
(an empty or undecodable region scores zero, spec §7). -/
def helmetScorerSpec (regionData : Option detectionAlt.RegionData) : SimpleScore :=
  match regionData with
  | none => ⟨false, 0⟩
  | some rd =>
    if rd.pixelCount = 0 then ⟨false, 0⟩
    else
      let confidence : ℚ :=
        (if detectionAlt.isValidHelmetColor rd.avgColor then 0.4 else 0) +
        (if rd.colorVariance < 0.3 then 0.3 else 0) +
        (if rd.roundness > 0.6 then 0.25 else 0) +
        (if rd.edgeIntensity > 0.3 ∧ rd.edgeIntensity < 0.8 then 0.15 else 0) +
        (if rd.centerY < rd.imageHeight * 0.4 then 0.1 else 0)
      ⟨decide (min 0.98 confidence > 0.7), min 0.98 confidence⟩

/-- Every confidence value the reference helmet scorer can produce (all
gate combinations, capped at 0.98, plus the degenerate 0). -/
def helmetSpecConfidences : List ℚ :=
  ([false, true].flatMap fun g1 =>
    [false, true].flatMap fun g2 =>
      [false, true].flatMap fun g3 =>
        [false, true].flatMap fun g4 =>
          [false, true].map fun g5 =>
            min 0.98 ((if g1 then (0.4 : ℚ) else 0) + (if g2 then 0.3 else 0) +
              (if g3 then 0.25 else 0) + (if g4 then 0.15 else 0) +
              (if g5 then 0.1 else 0)))

namespace detectionJs

/-- JavaScript `Number.prototype.toFixed`: round to `digits` decimals,
ties to the larger value, rendered with exactly `digits` fractional
digits. -/
def jsToFixed (digits : ℕ) (q : ℚ) : String :=
  let scaled : ℤ := ⌊q * (10 : ℚ) ^ digits + 1/2⌋
  let render : ℕ → String := fun m =>
    let intPart := String.mk (Nat.toDigits 10 (m / 10 ^ digits))
    if digits = 0 then intPart
    else
      let fs := Nat.toDigits 10 (m % 10 ^ digits)
      intPart ++ "." ++ String.mk (List.replicate (digits - fs.length) '0' ++ fs)
  if scaled < 0 then "-" ++ render (-scaled).toNat else render scaled.toNat

/-- The canonical representation `generateDetectionHash` serializes: per
detection, the label, the confidence at 2 decimals and the four bbox
fields at 3 decimals. -/
def canonicalRep (ds : List Detection) :
    List (String × String × String × String × String × String) :=
  ds.map fun d =>
    (d.label, jsToFixed 2 d.confidence, jsToFixed 3 d.bbox.x, jsToFixed 3 d.bbox.y,
      jsToFixed 3 d.bbox.width, jsToFixed 3 d.bbox.height)

/-- JSON text of one canonical tuple, with the key order of the object
literal in `generateDetectionHash`. -/
def jsonOfTuple (t : String × String × String × String × String × String) : String :=
  "\x7b\"label\":\"" ++ t.1 ++ "\",\"confidence\":\"" ++ t.2.1 ++
    "\",\"bbox\":\x7b\"x\":\"" ++ t.2.2.1 ++ "\",\"y\":\"" ++ t.2.2.2.1 ++
    "\",\"width\":\"" ++ t.2.2.2.2.1 ++ "\",\"height\":\"" ++ t.2.2.2.2.2 ++
    "\"\x7d\x7d"

/-- The `JSON.stringify` output for the mapped detection array. -/
def jsonOfDetections (ds : List Detection) : String :=
  "[" ++ String.intercalate "," ((canonicalRep ds).map jsonOfTuple) ++ "]"

/-- A hexadecimal digit. -/
def hexChar (n : ℕ) : Char :=
  "0123456789abcdef".data.getD (n % 16) '0'

/-- Modelled from the spec (§4.5): node's `crypto` md5 is outside the
repository, and the spec states the exact digest algorithm is not
load-bearing — any fixed function of the serialized canonical form that
yields a stable fixed-length hexadecimal string satisfies the contract.
We model it as a 128-bit polynomial fold rendered as 32 hex digits. -/
def md5hex (s : String) : String :=
  let h := s.data.foldl (fun acc c => (acc * 131 + c.toNat) % 2 ^ 128) 0
  String.mk ((List.range 32).map fun i => hexChar (h / 16 ^ (31 - i) % 16))

/-- detection.js `generateDetectionHash`: digest of the deterministic
serialization of the rounded canonical representation. -/
def generateDetectionHash (ds : List Detection) : String :=
  md5hex (jsonOfDetections ds)

end detectionJs

/-- A 129×2 test image whose byte array covers only the first 98 pixels of
the first row (the scanners skip any window pixel whose bytes fall outside
the array, exactly as the source's bounds check does): safety-green runs
at columns 0–31, 48–79 and 96–97, black in between.  The helmet scanner
accepts exactly the three windows seeded at x = 0, 48, 96, whose refined
boxes pairwise overlap below the merge threshold. -/
def threeHelmetBuffer : PixelBuffer :=
  ⟨129, 2, ((List.range 98).map fun c =>
    if c < 32 || (48 ≤ c && c < 80) || 96 ≤ c then [70, 130, 60, 255]
    else [0, 0, 0, 255]).flatten⟩

/-- A 33×2 safety-green image whose byte array covers its first two
pixels: the helmet scanner fires on its single window. -/
def greenBuffer : PixelBuffer :=
  ⟨33, 2, [70, 130, 60, 255, 70, 130, 60, 255]⟩

/-- The single detection the pipeline produces on `greenBuffer`. -/
def greenDetection : Detection :=
  ⟨"helmet", 19/20, ⟨0, 0, 1, 1⟩, some "green"⟩

/-- Two same-label boxes whose IoU is exactly 3/10 (the second box is the
unit square shifted right by 7/13). -/
def exactIoUBoxA : Detection := ⟨"helmet", 9/10, ⟨0, 0, 1, 1⟩, none⟩

/-- The partner of `exactIoUBoxA`. -/
def exactIoUBoxB : Detection := ⟨"helmet", 4/5, ⟨7/13, 0, 1, 1⟩, none⟩

/-- Order-sensitivity example, candidate A: confidence 0.7. -/
def chainBoxA : Detection := ⟨"helmet", 7/10, ⟨0, 0, 2/5, 1⟩, none⟩

/-- Order-sensitivity example, candidate B: confidence 0.9, overlapping
both A and C above the threshold. -/
def chainBoxB : Detection := ⟨"helmet", 9/10, ⟨1/5, 0, 2/5, 1⟩, none⟩

/-- Order-sensitivity example, candidate C: confidence 0.8, overlapping B
but not A. -/
def chainBoxC : Detection := ⟨"helmet", 4/5, ⟨7/20, 0, 2/5, 1⟩, none⟩

/-- Two clearly overlapping same-label boxes (IoU 1/3). -/
def overlapBoxA : Detection := ⟨"helmet", 9/10, ⟨0, 0, 1, 1⟩, none⟩

/-- The partner of `overlapBoxA`. -/
def overlapBoxB : Detection := ⟨"helmet", 4/5, ⟨1/2, 0, 1, 1⟩, none⟩

/-- A small region of uniform gray pixels: bright, colourless, uniform. -/
def grayRegion : List Pixel := List.replicate 4 ⟨200, 200, 200, 255⟩

/-- A detection set whose raw fields round to the canonical form of
`roundedSetB`. -/
def roundedSetA : List Detection :=
  [⟨"helmet", 951/1000, ⟨1/4, 0, 1/2, 1/2⟩, none⟩]

/-- A detection set differing from `roundedSetA` in raw confidence and in
the colour field but agreeing after canonical rounding. -/
def roundedSetB : List Detection :=
  [⟨"helmet", 9501/10000, ⟨1/4, 0, 1/2, 1/2⟩, some "green"⟩]

/-- All four fields of a bounding box lie in `[0, 1]` and the box exceeds
the unit square by at most the spec's tolerance. -/
def bboxInRange (b : BBox) : Prop :=
  0 ≤ b.x ∧ b.x ≤ 1 ∧ 0 ≤ b.y ∧ b.y ≤ 1 ∧
  0 ≤ b.width ∧ b.width ≤ 1 ∧ 0 ≤ b.height ∧ b.height ≤ 1 ∧
  b.x + b.width ≤ 1.001 ∧ b.y + b.height ≤ 1.001

/-- The range invariant of spec §8: confidence in `[0, 1]` and the
bounding box inside the tolerant unit square. -/
def detectionInRange (d : Detection) : Prop :=
  (0 ≤ d.confidence ∧ d.confidence ≤ 1) ∧ bboxInRange d.bbox

/-- A string made of lower-case hexadecimal digits. -/
def isHexString (s : String) : Prop :=
  ∀ c ∈ s.data, c ∈ "0123456789abcdef".data

/- ------------------------------------------------------------------ -/
/- Lemmas about the fuelled recursions.                                -/
/- ------------------------------------------------------------------ -/

theorem mergeAux_congr (t : ℚ) :
    ∀ (f g : ℕ) (l : List Detection), l.length ≤ f → l.length ≤ g →
      detectionJs.mergeAux t f l = detectionJs.mergeAux t g l := by
  intro f
  induction f with
  | zero =>
    intro g l hf _
    match l, g with
    | [], 0 => rfl
    | [], g + 1 => rfl
    | d :: rest, _ => simp at hf
  | succ f ih =>
    intro g l hf hg
    match l, g with
    | [], 0 => rfl
    | [], g + 1 => rfl
    | d :: rest, 0 => simp at hg
    | d :: rest, g + 1 =>
      simp only [detectionJs.mergeAux, List.cons.injEq, true_and]
      exact ih g _
        (le_trans (List.length_filter_le _ _) (Nat.succ_le_succ_iff.mp hf))
        (le_trans (List.length_filter_le _ _) (Nat.succ_le_succ_iff.mp hg))

theorem merge_nil (t : ℚ) : detectionJs.mergeOverlappingDetections [] t = [] := rfl

theorem merge_cons (d : Detection) (rest : List Detection) (t : ℚ) :
    detectionJs.mergeOverlappingDetections (d :: rest) t =
      detectionJs.bestOf d (rest.filter (detectionJs.consumes d t)) ::
        detectionJs.mergeOverlappingDetections
          (rest.filter (fun e => !(detectionJs.consumes d t e))) t := by
  show detectionJs.mergeAux t (rest.length + 1) (d :: rest) = _
  simp only [detectionJs.mergeAux, List.cons.injEq, true_and]
  exact mergeAux_congr t rest.length _ _ (List.length_filter_le _ _) le_rfl

theorem bestOf_cons (d x : Detection) (xs : List Detection) :
    detectionJs.bestOf d (x :: xs) =
      detectionJs.bestOf (if x.confidence > d.confidence then x else d) xs := rfl

theorem bestOf_mem : ∀ (rest : List Detection) (d : Detection),
    detectionJs.bestOf d rest ∈ d :: rest := by
  intro rest
  induction rest with
  | nil => intro d; simp [detectionJs.bestOf]
  | cons x xs ih =>
    intro d
    rw [bestOf_cons]
    rcases List.mem_cons.mp (ih (if x.confidence > d.confidence then x else d)) with h | h
    · rw [h]
      split <;> simp
    · simp only [List.mem_cons] at h ⊢
      tauto

theorem le_bestOf : ∀ (rest : List Detection) (d e : Detection), e ∈ d :: rest →
    e.confidence ≤ (detectionJs.bestOf d rest).confidence := by
  intro rest
  induction rest with
  | nil =>
    intro d e he
    simp at he
    subst he
    simp [detectionJs.bestOf]
  | cons x xs ih =>
    intro d e he
    rw [bestOf_cons]
    have hd : d.confidence ≤ (if x.confidence > d.confidence then x else d).confidence := by
      split <;> simp_all <;> linarith
    have hx : x.confidence ≤ (if x.confidence > d.confidence then x else d).confidence := by
      split <;> simp_all
    rcases List.mem_cons.mp he with rfl | he2
    · exact le_trans hd (ih _ _ (List.mem_cons_self _ _))
    rcases List.mem_cons.mp he2 with rfl | he3
    · exact le_trans hx (ih _ _ (List.mem_cons_self _ _))
    · exact ih _ e (List.mem_cons_of_mem _ he3)

theorem mergeAux_subset (t : ℚ) :
    ∀ (f : ℕ) (l : List Detection) (d : Detection), d ∈ detectionJs.mergeAux t f l → d ∈ l := by
  intro f
  induction f with
  | zero =>
    intro l d hd
    match l with
    | [] => exact absurd hd (by simp [detectionJs.mergeAux])
    | a :: rest => exact absurd hd (by simp [detectionJs.mergeAux])
  | succ f ih =>
    intro l d hd
    match l with
    | [] => exact absurd hd (by simp [detectionJs.mergeAux])
    | a :: rest =>
      simp only [detectionJs.mergeAux, List.mem_cons] at hd
      rcases hd with h | h
      · subst h
        rcases List.mem_cons.mp (bestOf_mem _ a) with h1 | h1
        · rw [h1]; exact List.mem_cons_self _ _
        · exact List.mem_cons_of_mem _ (List.mem_of_mem_filter h1)
      · exact List.mem_cons_of_mem _ (List.mem_of_mem_filter (ih _ d h))

theorem mem_of_mem_merge {l : List Detection} {t : ℚ} {d : Detection}
    (hd : d ∈ detectionJs.mergeOverlappingDetections l t) : d ∈ l :=
  mergeAux_subset t l.length l d hd

theorem count_filter_split {α} [DecidableEq α] (p : α → Bool) (l : List α) (x : α) :
    l.count x = (l.filter p).count x + (l.filter (fun a => !(p a))).count x := by
  induction l with
  | nil => simp
  | cons a l ih =>
    by_cases h : p a = true <;>
      simp [List.filter_cons, h, List.count_cons, ih] <;> omega

theorem mergeAux_count_le (t : ℚ) :
    ∀ (f : ℕ) (l : List Detection) (x : Detection),
      (detectionJs.mergeAux t f l).count x ≤ l.count x := by
  intro f
  induction f with
  | zero =>
    intro l x
    match l with
    | [] => simp [detectionJs.mergeAux]
    | a :: rest => simp [detectionJs.mergeAux]
  | succ f ih =>
    intro l x
    match l with
    | [] => simp [detectionJs.mergeAux]
    | a :: rest =>
      simp only [detectionJs.mergeAux]
      have hsplit := count_filter_split (detectionJs.consumes a t) rest x
      have h1 := ih (rest.filter (fun e => !(detectionJs.consumes a t e))) x
      rw [List.count_cons, List.count_cons]
      simp only [beq_iff_eq]
      by_cases hb : detectionJs.bestOf a (rest.filter (detectionJs.consumes a t)) = x
      · rcases List.mem_cons.mp (hb ▸ bestOf_mem (rest.filter (detectionJs.consumes a t)) a)
          with h2 | h2
        · rw [if_pos hb, if_pos h2.symm]
          omega
        · have hcnt : 0 < (rest.filter (detectionJs.consumes a t)).count x :=
            List.count_pos_iff.mpr h2
          rw [if_pos hb]
          split_ifs <;> omega
      · rw [if_neg hb]
        split_ifs <;> omega

theorem clustersAux_congr (t : ℚ) :
    ∀ (f g : ℕ) (l : List Detection), l.length ≤ f → l.length ≤ g →
      detectionJs.clustersAux t f l = detectionJs.clustersAux t g l := by
  intro f
  induction f with
  | zero =>
    intro g l hf _
    match l, g with
    | [], 0 => rfl
    | [], g + 1 => rfl
    | d :: rest, _ => simp at hf
  | succ f ih =>
    intro g l hf hg
    match l, g with
    | [], 0 => rfl
    | [], g + 1 => rfl
    | d :: rest, 0 => simp at hg
    | d :: rest, g + 1 =>
      simp only [detectionJs.clustersAux, List.cons.injEq, true_and]
      exact ih g _
        (le_trans (List.length_filter_le _ _) (Nat.succ_le_succ_iff.mp hf))
        (le_trans (List.length_filter_le _ _) (Nat.succ_le_succ_iff.mp hg))

theorem clusters_cons (d : Detection) (rest : List Detection) (t : ℚ) :
    detectionJs.clustersOf (d :: rest) t =
      (d :: rest.filter (detectionJs.consumes d t)) ::
        detectionJs.clustersOf (rest.filter (fun e => !(detectionJs.consumes d t e))) t := by
  show detectionJs.clustersAux t (rest.length + 1) (d :: rest) = _
  simp only [detectionJs.clustersAux, List.cons.injEq, true_and]
  exact clustersAux_congr t rest.length _ _ (List.length_filter_le _ _) le_rfl

/-- Each member of the merge output is the confidence-maximal member of one
of the walk's clusters (established jointly for the fuelled forms). -/
theorem mergeAux_clusters (t : ℚ) :
    ∀ (f : ℕ) (l : List Detection) (d : Detection), d ∈ detectionJs.mergeAux t f l →
      ∃ c ∈ detectionJs.clustersAux t f l, d ∈ c ∧ ∀ e ∈ c, e.confidence ≤ d.confidence := by
  intro f
  induction f with
  | zero =>
    intro l d hd
    match l with
    | [] => exact absurd hd (by simp [detectionJs.mergeAux])
    | a :: rest => exact absurd hd (by simp [detectionJs.mergeAux])
  | succ f ih =>
    intro l d hd
    match l with
    | [] => exact absurd hd (by simp [detectionJs.mergeAux])
    | a :: rest =>
      simp only [detectionJs.mergeAux, List.mem_cons] at hd
      rcases hd with h | h
      · refine ⟨a :: rest.filter (detectionJs.consumes a t), ?_, ?_, ?_⟩
        · simp [detectionJs.clustersAux]
        · exact h ▸ bestOf_mem _ a
        · intro e he
          exact h ▸ le_bestOf _ a e he
      · obtain ⟨c, hc, hdc, hbest⟩ := ih _ d h
        exact ⟨c, by simp [detectionJs.clustersAux, hc], hdc, hbest⟩

theorem firstLabelsAux_congr :
    ∀ (f g : ℕ) (l : List Detection), l.length ≤ f → l.length ≤ g →
      firstLabelsAux f l = firstLabelsAux g l := by
  intro f
  induction f with
  | zero =>
    intro g l hf _
    match l, g with
    | [], 0 => rfl
    | [], g + 1 => rfl
    | d :: rest, _ => simp at hf
  | succ f ih =>
    intro g l hf hg
    match l, g with
    | [], 0 => rfl
    | [], g + 1 => rfl
    | d :: rest, 0 => simp at hg
    | d :: rest, g + 1 =>
      simp only [firstLabelsAux, List.cons.injEq, true_and]
      exact ih g _
        (le_trans (List.length_filter_le _ _) (Nat.succ_le_succ_iff.mp hf))
        (le_trans (List.length_filter_le _ _) (Nat.succ_le_succ_iff.mp hg))

theorem firstLabels_cons (d : Detection) (rest : List Detection) :
    firstLabels (d :: rest) =
      d.label :: firstLabels (rest.filter (fun e => e.label != d.label)) := by
  show firstLabelsAux (rest.length + 1) (d :: rest) = _
  simp only [firstLabelsAux, List.cons.injEq, true_and]
  exact firstLabelsAux_congr rest.length _ _ (List.length_filter_le _ _) le_rfl

theorem firstLabelsAux_mem :
    ∀ (f : ℕ) (l : List Detection) (s : String), s ∈ firstLabelsAux f l →
      ∃ d ∈ l, d.label = s := by
  intro f
  induction f with
  | zero =>
    intro l s hs
    match l with
    | [] => exact absurd hs (by simp [firstLabelsAux])
    | a :: rest => exact absurd hs (by simp [firstLabelsAux])
  | succ f ih =>
    intro l s hs
    match l with
    | [] => exact absurd hs (by simp [firstLabelsAux])
    | a :: rest =>
      simp only [firstLabelsAux, List.mem_cons] at hs
      rcases hs with h | h
      · exact ⟨a, List.mem_cons_self _ _, h.symm⟩
      · obtain ⟨e, he, hlab⟩ := ih _ s h
        exact ⟨e, List.mem_cons_of_mem _ (List.mem_of_mem_filter he), hlab⟩

theorem firstLabelsAux_nodup :
    ∀ (f : ℕ) (l : List Detection), (firstLabelsAux f l).Nodup := by
  intro f
  induction f with
  | zero =>
    intro l
    match l with
    | [] => simp [firstLabelsAux]
    | a :: rest => simp [firstLabelsAux]
  | succ f ih =>
    intro l
    match l with
    | [] => simp [firstLabelsAux]
    | a :: rest =>
      simp only [firstLabelsAux, List.nodup_cons]
      refine ⟨fun hmem => ?_, ih _⟩
      obtain ⟨e, he, hlab⟩ := firstLabelsAux_mem f _ _ hmem
      have := List.of_mem_filter he
      rw [hlab] at this
      simp at this

theorem firstLabels_nodup (l : List Detection) : (firstLabels l).Nodup :=
  firstLabelsAux_nodup l.length l

/-- The label groups built by the assembly stage partition the list: their
concatenation in first-occurrence label order is a permutation of it. -/
theorem flatMap_groups_perm :
    ∀ (f : ℕ) (l : List Detection), l.length ≤ f →
      List.Perm ((firstLabelsAux f l).flatMap fun lab => l.filter (fun d => d.label == lab)) l := by
  intro f
  induction f with
  | zero =>
    intro l hf
    match l with
    | [] => simp [firstLabelsAux]
    | d :: rest => simp at hf
  | succ f ih =>
    intro l hf
    match l with
    | [] => simp [firstLabelsAux]
    | d :: rest =>
      simp only [firstLabelsAux, List.flatMap_cons]
      have hhead : (d :: rest).filter (fun e => e.label == d.label) =
          d :: rest.filter (fun e => e.label == d.label) := by
        simp [List.filter_cons]
      have htail : ∀ lab ∈ firstLabelsAux f (rest.filter (fun e => e.label != d.label)),
          (d :: rest).filter (fun e => e.label == lab) =
            (rest.filter (fun e => e.label != d.label)).filter (fun e => e.label == lab) := by
        intro lab hlab
        obtain ⟨e, he, hlabe⟩ := firstLabelsAux_mem f _ _ hlab
        have hne : lab ≠ d.label := by
          have := List.of_mem_filter he
          rw [hlabe] at this
          simpa using this
        rw [List.filter_filter]
        rw [List.filter_cons]
        have hd0 : (d.label == lab) = false := by
          simpa using fun h => hne h.symm
        simp only [hd0, Bool.false_eq_true, if_false]
        apply List.filter_congr
        intro e' _
        by_cases hq : (e'.label == lab) = true
        · have : (e'.label != d.label) = true := by
            have heq : e'.label = lab := by simpa using hq
            simpa [heq] using hne
          simp [hq, this]
        · simp [Bool.eq_false_iff.mpr hq]
      have hmapeq :
          ((firstLabelsAux f (rest.filter (fun e => e.label != d.label))).flatMap
              fun lab => (d :: rest).filter (fun e => e.label == lab)) =
            ((firstLabelsAux f (rest.filter (fun e => e.label != d.label))).flatMap
              fun lab =>
                (rest.filter (fun e => e.label != d.label)).filter
                  (fun e => e.label == lab)) := by
        simp only [List.flatMap]
        congr 1
        exact List.map_congr_left htail
      rw [hhead, hmapeq]
      have hperm := ih (rest.filter (fun e => e.label != d.label))
        (le_trans (List.length_filter_le _ _) (Nat.succ_le_succ_iff.mp hf))
      refine List.Perm.trans (List.Perm.cons d (hperm.append_left _)) ?_
      have hsplit : List.Perm (rest.filter (fun e => e.label == d.label) ++
          rest.filter (fun e => e.label != d.label)) rest := by
        have := List.filter_append_perm (fun e => e.label == d.label) rest
        simpa [bne] using this
      exact List.Perm.cons d hsplit

/-- The grouping permutation stated over `firstLabels` itself. -/
theorem groups_perm (l : List Detection) :
    List.Perm ((firstLabels l).flatMap fun lab => l.filter (fun d => d.label == lab)) l :=
  flatMap_groups_perm l.length l le_rfl

theorem count_flatMap_le {α β} [DecidableEq β] (labs : List α) (f g : α → List β) (x : β)
    (h : ∀ a ∈ labs, (f a).count x ≤ (g a).count x) :
    (labs.flatMap f).count x ≤ (labs.flatMap g).count x := by
  induction labs with
  | nil => simp
  | cons a labs ih =>
    simp only [List.flatMap_cons, List.count_append]
    have h1 := h a (List.mem_cons_self _ _)
    have h2 := ih (fun b hb => h b (List.mem_cons_of_mem _ hb))
    omega

theorem countLabel_eq_zero {g : List Detection} {s : String}
    (h : ∀ d ∈ g, d.label ≠ s) : countLabel g s = 0 := by
  unfold countLabel
  rw [List.length_eq_zero, List.filter_eq_nil_iff]
  intro d hd
  simpa using h d hd

theorem countLabel_append (l₁ l₂ : List Detection) (s : String) :
    countLabel (l₁ ++ l₂) s = countLabel l₁ s + countLabel l₂ s := by
  unfold countLabel
  rw [List.filter_append, List.length_append]

theorem countLabel_le_length (l : List Detection) (s : String) :
    countLabel l s ≤ l.length :=
  List.length_filter_le _ _

theorem mem_take_sort_group {l : List Detection} {lab : String} {k : ℕ} {d : Detection}
    (hd : d ∈ (sortByConfidenceDesc (l.filter (fun e => e.label == lab))).take k) :
    d.label = lab ∧ d ∈ l := by
  have h1 : d ∈ sortByConfidenceDesc (l.filter (fun e => e.label == lab)) :=
    List.mem_of_mem_take hd
  have h2 : d ∈ l.filter (fun e => e.label == lab) :=
    (List.perm_insertionSort confGe _).mem_iff.mp h1
  exact ⟨by simpa using List.of_mem_filter h2, List.mem_of_mem_filter h2⟩

/-- The per-label cap bound of the alternate variant's
`limitDetectionsPerClass`: each label occurs at most `capFor` many times in
the limited list. -/
theorem countLabel_limit_le (l : List Detection) (s : String) :
    countLabel (detectionAlt.limitDetectionsPerClass l) s ≤ detectionAlt.capFor s := by
  unfold detectionAlt.limitDetectionsPerClass
  have H : ∀ labs : List String, labs.Nodup →
      countLabel (labs.flatMap fun lab =>
        (sortByConfidenceDesc (l.filter (fun d => d.label == lab))).take
          (detectionAlt.capFor lab)) s ≤ detectionAlt.capFor s := by
    intro labs
    induction labs with
    | nil =>
      intro _
      simp [countLabel]
    | cons lab labs ih =>
      intro hnd
      rcases List.nodup_cons.mp hnd with ⟨hnotin, hnd'⟩
      rw [List.flatMap_cons, countLabel_append]
      by_cases hs : lab = s
      · subst hs
        have h1 : countLabel ((sortByConfidenceDesc
            (l.filter (fun d => d.label == lab))).take (detectionAlt.capFor lab)) lab ≤
              detectionAlt.capFor lab :=
          le_trans (countLabel_le_length _ _)
            (le_trans (List.length_take _ _ ▸ min_le_left _ _) le_rfl)
        have h2 : countLabel (labs.flatMap fun lab' =>
            (sortByConfidenceDesc (l.filter (fun d => d.label == lab'))).take
              (detectionAlt.capFor lab')) lab = 0 := by
          apply countLabel_eq_zero
          intro d hd
          obtain ⟨lab', hlab', hdmem⟩ := List.mem_flatMap.mp hd
          have hlabel := (mem_take_sort_group hdmem).1
          intro hcon
          have heq : lab = lab' := by rw [← hcon, hlabel]
          exact hnotin (heq ▸ hlab')
        omega
      · have h1 : countLabel ((sortByConfidenceDesc
            (l.filter (fun d => d.label == lab))).take (detectionAlt.capFor lab)) s = 0 :=
          countLabel_eq_zero fun d hd => by
            rw [(mem_take_sort_group hd).1]
            exact hs
        rw [h1]
        simpa using ih hnd'
  exact H (firstLabels l) (firstLabels_nodup l)

theorem sortByConfidenceDesc_idem (l : List Detection) :
    sortByConfidenceDesc (sortByConfidenceDesc l) = sortByConfidenceDesc l :=
  List.Sorted.insertionSort_eq (List.sorted_insertionSort confGe l)

theorem filterAndMerge_count_le (l : List Detection) (x : Detection) :
    (detectionJs.filterAndMergeDetections l).count x ≤ l.count x := by
  unfold detectionJs.filterAndMergeDetections
  have hsort := (List.perm_insertionSort confGe
    ((firstLabels (l.filter fun d => decide (d.confidence > 0.6))).flatMap fun lab =>
      detectionJs.mergeOverlappingDetections
        ((l.filter fun d => decide (d.confidence > 0.6)).filter
          (fun d => d.label == lab)) 0.3)).count_eq x
  rw [sortByConfidenceDesc, hsort]
  have h1 : ((firstLabels (l.filter fun d => decide (d.confidence > 0.6))).flatMap fun lab =>
      detectionJs.mergeOverlappingDetections
        ((l.filter fun d => decide (d.confidence > 0.6)).filter
          (fun d => d.label == lab)) 0.3).count x ≤
      ((firstLabels (l.filter fun d => decide (d.confidence > 0.6))).flatMap fun lab =>
        (l.filter fun d => decide (d.confidence > 0.6)).filter
          (fun d => d.label == lab)).count x :=
    count_flatMap_le _ _ _ x fun lab _ => mergeAux_count_le 0.3 _ _ x
  have h2 := (groups_perm (l.filter fun d => decide (d.confidence > 0.6))).count_eq x
  have h3 : ((l.filter fun d => decide (d.confidence > 0.6)).count x) ≤ l.count x :=
    (List.filter_sublist l).count_le x
  omega

theorem mem_of_mem_filterAndMerge {l : List Detection} {d : Detection}
    (hd : d ∈ detectionJs.filterAndMergeDetections l) : d ∈ l := by
  unfold detectionJs.filterAndMergeDetections at hd
  have h1 : d ∈ (firstLabels (l.filter fun d => decide (d.confidence > 0.6))).flatMap
      (fun lab => detectionJs.mergeOverlappingDetections
        ((l.filter fun d => decide (d.confidence > 0.6)).filter
          (fun d => d.label == lab)) 0.3) :=
    (List.perm_insertionSort confGe _).mem_iff.mp hd
  obtain ⟨lab, _, hmem⟩ := List.mem_flatMap.mp h1
  exact List.mem_of_mem_filter (List.mem_of_mem_filter (mem_of_mem_merge hmem))

/- ------------------------------------------------------------------ -/
/- Arithmetic helpers for the range invariant.                         -/
/- ------------------------------------------------------------------ -/

theorem stridePositions_lt {bound stride p : ℕ} (hs : 0 < stride)
    (hp : p ∈ stridePositions bound stride) : p < bound := by
  unfold stridePositions at hp
  obtain ⟨k, hk, hkp⟩ := List.mem_map.mp hp
  rw [List.mem_range] at hk
  have h3 : (k + 1) * stride ≤ bound + stride - 1 := (Nat.le_div_iff_mul_le hs).mp hk
  have h4 : k * stride + stride ≤ bound + stride - 1 := by
    rw [Nat.succ_mul] at h3
    omega
  omega

theorem jsFloorNat_le {q : ℚ} (hq : 0 ≤ q) : (jsFloorNat q : ℚ) ≤ q := by
  have h1 : (⌊q⌋.toNat : ℤ) = ⌊q⌋ := Int.toNat_of_nonneg (Int.floor_nonneg.mpr hq)
  have h2 : ((jsFloorNat q : ℕ) : ℚ) = ((⌊q⌋ : ℤ) : ℚ) := by
    unfold jsFloorNat
    exact_mod_cast congrArg (fun z : ℤ => (z : ℚ)) h1
  rw [h2]
  exact Int.floor_le q

/-- Normalizing a sub-interval `[sx, sx + sw]` of `[0, W]` by `W` lands in
the unit interval with the spec's tolerance. -/
theorem normFrac {sx sw W : ℚ} (hsx : 0 ≤ sx) (hsw : 0 ≤ sw)
    (hsum : sx + sw ≤ W) (hW : 0 < W) :
    0 ≤ sx / W ∧ sx / W ≤ 1 ∧ 0 ≤ sw / W ∧ sw / W ≤ 1 ∧ sx / W + sw / W ≤ 1.001 := by
  have h1 : sx ≤ W := by linarith
  have h2 : sw ≤ W := by linarith
  refine ⟨div_nonneg hsx hW.le, (div_le_one hW).mpr h1, div_nonneg hsw hW.le,
    (div_le_one hW).mpr h2, ?_⟩
  rw [div_add_div_same]
  have h3 : (sx + sw) / W ≤ 1 := (div_le_one hW).mpr hsum
  have h4 : (1 : ℚ) ≤ 1.001 := by norm_num
  linarith

theorem min_cap_bounds (c cap : ℚ) (hc : 0 ≤ c) (h0 : 0 ≤ cap) (h1 : cap ≤ 1) :
    0 ≤ min c cap ∧ min c cap ≤ 1 :=
  ⟨le_min hc h0, le_trans (min_le_right _ _) h1⟩

theorem gate_nonneg (b : Prop) [Decidable b] (c add : ℚ) (hc : 0 ≤ c) (ha : 0 ≤ add) :
    0 ≤ if b then c + add else c := by
  split
  · linarith
  · exact hc

theorem helmetScore_conf_bounds (p : List Pixel) (bs : ℕ) :
    0 ≤ (detectionJs.analyzeHelmetRegion p bs).confidence ∧
      (detectionJs.analyzeHelmetRegion p bs).confidence ≤ 1 := by
  unfold detectionJs.analyzeHelmetRegion
  split
  · constructor <;> norm_num
  · dsimp only
    refine min_cap_bounds _ _ ?_ (by norm_num) (by norm_num)
    apply gate_nonneg _ _ _ ?_ (by norm_num)
    apply gate_nonneg _ _ _ ?_ (by norm_num)
    apply gate_nonneg _ _ _ ?_ (by norm_num)
    exact ite_nonneg (by norm_num) (by norm_num)

theorem vestScore_conf_bounds (p : List Pixel) (bs : ℕ) :
    0 ≤ (detectionJs.analyzeVestRegion p bs).confidence ∧
      (detectionJs.analyzeVestRegion p bs).confidence ≤ 1 := by
  unfold detectionJs.analyzeVestRegion
  split
  · constructor <;> norm_num
  · dsimp only
    refine min_cap_bounds _ _ ?_ (by norm_num) (by norm_num)
    apply gate_nonneg _ _ _ ?_ (by norm_num)
    apply gate_nonneg _ _ _ ?_ (by norm_num)
    apply gate_nonneg _ _ _ ?_ (by norm_num)
    exact ite_nonneg (by norm_num) (by norm_num)

theorem skinTone_bounds (p : List Pixel) :
    0 ≤ detectionJs.analyzeSkinTone p ∧ detectionJs.analyzeSkinTone p ≤ 1 := by
  unfold detectionJs.analyzeSkinTone
  split
  · exact ⟨le_rfl, by norm_num⟩
  · rename_i h
    have hlen : (0 : ℚ) < (p.length : ℚ) := by
      exact_mod_cast Nat.pos_of_ne_zero h
    constructor
    · positivity
    · rw [div_le_one hlen]
      exact_mod_cast List.length_filter_le _ _

theorem padBox_props {xq W pad cap : ℚ} (hpad : 0 ≤ pad) (hcap : 0 ≤ cap)
    (hx0 : 0 ≤ xq) (hxW : xq < W) :
    0 ≤ max 0 (xq - pad) ∧ 0 ≤ min cap (W - max 0 (xq - pad)) ∧
      max 0 (xq - pad) + min cap (W - max 0 (xq - pad)) ≤ W := by
  have h1 : max 0 (xq - pad) ≤ xq := max_le hx0 (by linarith)
  refine ⟨le_max_left _ _, le_min hcap (by linarith), ?_⟩
  have h2 := min_le_right cap (W - max 0 (xq - pad))
  linarith

theorem bboxInRange_div {bx bw byq bh w h : ℚ} (hw : 0 < w) (hh : 0 < h)
    (h1 : 0 ≤ bx) (h2 : 0 ≤ bw) (h3 : bx + bw ≤ w)
    (h4 : 0 ≤ byq) (h5 : 0 ≤ bh) (h6 : byq + bh ≤ h) :
    bboxInRange ⟨bx / w, byq / h, bw / w, bh / h⟩ := by
  obtain ⟨p1, p2, p3, p4, p5⟩ := normFrac h1 h2 h3 hw
  obtain ⟨q1, q2, q3, q4, q5⟩ := normFrac h4 h5 h6 hh
  exact ⟨p1, p2, q1, q2, p3, p4, q3, q4, p5, q5⟩

theorem refineHelmetBounds_props (w h x y : ℕ) (hxw : (x : ℚ) < w) (hyh : (y : ℚ) < h) :
    0 ≤ (detectionJs.refineHelmetBounds w h x y 32).x ∧
    0 ≤ (detectionJs.refineHelmetBounds w h x y 32).width ∧
    (detectionJs.refineHelmetBounds w h x y 32).x +
      (detectionJs.refineHelmetBounds w h x y 32).width ≤ w ∧
    0 ≤ (detectionJs.refineHelmetBounds w h x y 32).y ∧
    0 ≤ (detectionJs.refineHelmetBounds w h x y 32).height ∧
    (detectionJs.refineHelmetBounds w h x y 32).y +
      (detectionJs.refineHelmetBounds w h x y 32).height ≤ h := by
  unfold detectionJs.refineHelmetBounds
  have hpad : (0 : ℚ) ≤ ((32 : ℕ) : ℚ) * 0.25 := by norm_num
  obtain ⟨a1, a2, a3⟩ := padBox_props hpad (Nat.cast_nonneg _) (Nat.cast_nonneg x) hxw
  obtain ⟨b1, b2, b3⟩ := padBox_props hpad (Nat.cast_nonneg _) (Nat.cast_nonneg y) hyh
  exact ⟨a1, a2, a3, b1, b2, b3⟩

theorem refineVestBounds_props (w h x y : ℕ) (hxw : (x : ℚ) < w) (hyh : (y : ℚ) < h) :
    0 ≤ (detectionJs.refineVestBounds w h x y 48).x ∧
    0 ≤ (detectionJs.refineVestBounds w h x y 48).width ∧
    (detectionJs.refineVestBounds w h x y 48).x +
      (detectionJs.refineVestBounds w h x y 48).width ≤ w ∧
    0 ≤ (detectionJs.refineVestBounds w h x y 48).y ∧
    0 ≤ (detectionJs.refineVestBounds w h x y 48).height ∧
    (detectionJs.refineVestBounds w h x y 48).y +
      (detectionJs.refineVestBounds w h x y 48).height ≤ h := by
  unfold detectionJs.refineVestBounds
  have hpadx : (0 : ℚ) ≤ ((48 : ℕ) : ℚ) * 0.4 := by norm_num
  have hpady : (0 : ℚ) ≤ ((48 : ℕ) : ℚ) * 0.1 := by norm_num
  obtain ⟨a1, a2, a3⟩ := padBox_props hpadx (Nat.cast_nonneg _) (Nat.cast_nonneg x) hxw
  obtain ⟨b1, b2, b3⟩ := padBox_props hpady (Nat.cast_nonneg _) (Nat.cast_nonneg y) hyh
  exact ⟨a1, a2, a3, b1, b2, b3⟩

theorem detectHelmets_inRange (data : List ℕ) (w h : ℕ) {d : Detection}
    (hd : d ∈ detectionJs.detectHelmets data w h) : detectionInRange d := by
  unfold detectionJs.detectHelmets at hd
  dsimp only at hd
  have hd' := mem_of_mem_merge hd
  obtain ⟨y, hy, hinner⟩ := List.mem_flatMap.mp hd'
  obtain ⟨x, hx, hmem2⟩ := List.mem_flatMap.mp hinner
  split at hmem2
  case isFalse => simp at hmem2
  case isTrue hacc =>
    rw [List.mem_singleton] at hmem2
    subst hmem2
    have hxb : x < w - 32 := stridePositions_lt (by norm_num) hx
    have hyb : y < jsFloorNat ((h : ℚ) * 0.5) := stridePositions_lt (by norm_num) hy
    have hxw32 : x + 32 < w := by omega
    have hxw : (x : ℚ) < w := by exact_mod_cast by omega
    have hyf : ((y : ℚ)) + 1 ≤ (jsFloorNat ((h : ℚ) * 0.5) : ℚ) := by exact_mod_cast hyb
    have hfle : (jsFloorNat ((h : ℚ) * 0.5) : ℚ) ≤ (h : ℚ) * 0.5 := by
      apply jsFloorNat_le
      positivity
    have hyh : (y : ℚ) < h := by
      have hy0 : (0 : ℚ) ≤ (y : ℚ) := Nat.cast_nonneg y
      nlinarith
    have hw0 : (0 : ℚ) < w := lt_of_le_of_lt (Nat.cast_nonneg x) hxw
    have hh0 : (0 : ℚ) < h := lt_of_le_of_lt (Nat.cast_nonneg y) hyh
    obtain ⟨a1, a2, a3, b1, b2, b3⟩ := refineHelmetBounds_props w h x y hxw hyh
    exact ⟨helmetScore_conf_bounds _ _, bboxInRange_div hw0 hh0 a1 a2 a3 b1 b2 b3⟩

theorem detectVests_inRange (data : List ℕ) (w h : ℕ) {d : Detection}
    (hd : d ∈ detectionJs.detectVests data w h) : detectionInRange d := by
  unfold detectionJs.detectVests at hd
  dsimp only at hd
  have hd' := mem_of_mem_merge hd
  obtain ⟨dy, hy, hinner⟩ := List.mem_flatMap.mp hd'
  obtain ⟨x, hx, hmem2⟩ := List.mem_flatMap.mp hinner
  split at hmem2
  case isFalse => simp at hmem2
  case isTrue hacc =>
    rw [List.mem_singleton] at hmem2
    subst hmem2
    have hxb : x < w - 48 := stridePositions_lt (by norm_num) hx
    have hyb : dy < jsFloorNat ((h : ℚ) * 0.6) := stridePositions_lt (by norm_num) hy
    have hxw : (x : ℚ) < w := by exact_mod_cast by omega
    have hsf : (jsFloorNat ((h : ℚ) * 0.2) : ℚ) ≤ (h : ℚ) * 0.2 := by
      apply jsFloorNat_le
      positivity
    have hdyf : ((dy : ℚ)) + 1 ≤ (jsFloorNat ((h : ℚ) * 0.6) : ℚ) := by exact_mod_cast hyb
    have hff : (jsFloorNat ((h : ℚ) * 0.6) : ℚ) ≤ (h : ℚ) * 0.6 := by
      apply jsFloorNat_le
      positivity
    have hh8 : (0 : ℚ) ≤ (h : ℚ) := Nat.cast_nonneg h
    have hyh : ((jsFloorNat ((h : ℚ) * 0.2) : ℕ) : ℚ) + (dy : ℚ) < h := by nlinarith
    have hy0 : (0 : ℚ) ≤ ((jsFloorNat ((h : ℚ) * 0.2) : ℕ) : ℚ) + (dy : ℚ) := by positivity
    have hw0 : (0 : ℚ) < w := lt_of_le_of_lt (Nat.cast_nonneg x) hxw
    have hh0 : (0 : ℚ) < h := lt_of_le_of_lt hy0 hyh
    have hcast : ((jsFloorNat ((h : ℚ) * 0.2) + dy : ℕ) : ℚ) =
        ((jsFloorNat ((h : ℚ) * 0.2) : ℕ) : ℚ) + (dy : ℚ) := by push_cast; ring
    obtain ⟨a1, a2, a3, b1, b2, b3⟩ :=
      refineVestBounds_props w h x (jsFloorNat ((h : ℚ) * 0.2) + dy) hxw (by rw [hcast]; exact hyh)
    exact ⟨vestScore_conf_bounds _ _, bboxInRange_div hw0 hh0 a1 a2 a3 b1 b2 b3⟩

theorem detectFullPPE_inRange (data : List ℕ) (w h : ℕ) {d : Detection}
    (hd : d ∈ detectionJs.detectFullPPE data w h) : detectionInRange d := by
  unfold detectionJs.detectFullPPE at hd
  obtain ⟨region, hreg, hmem⟩ := List.mem_flatMap.mp hd
  split at hmem
  case isFalse => simp at hmem
  case isTrue hcond =>
    unfold detectionJs.findFullBodyPPE at hreg
    obtain ⟨y, hy, hinner⟩ := List.mem_flatMap.mp hreg
    obtain ⟨x, hx, hmem2⟩ := List.mem_flatMap.mp hinner
    dsimp only at hmem2
    split at hmem2
    case isFalse => simp at hmem2
    case isTrue hu =>
      split at hmem2
      case isFalse => simp at hmem2
      case isTrue hblue =>
        rw [List.mem_singleton] at hmem2
        subst hmem2
        have hxb : x < w - 96 := stridePositions_lt (by norm_num) hx
        have hyb : y < h - 96 := stridePositions_lt (by norm_num) hy
        have hxw96 : x + 96 < w := by omega
        have hyh96 : y + 96 < h := by omega
        have hw0 : (0 : ℚ) < w := by
          have : (0 : ℕ) < w := by omega
          exact_mod_cast this
        have hh0 : (0 : ℚ) < h := by
          have : (0 : ℕ) < h := by omega
          exact_mod_cast this
        have hxq : (x : ℚ) + 96 ≤ w := by exact_mod_cast hxw96.le
        have hyq : (y : ℚ) + 96 ≤ h := by exact_mod_cast hyh96.le
        have hconf : ∀ c : ℚ, (0 ≤ if c < (h : ℚ) * 0.3 then (0.8 : ℚ) else 0.3) ∧
            (if c < (h : ℚ) * 0.3 then (0.8 : ℚ) else 0.3) ≤ 1 := by
          intro c
          constructor <;> split <;> norm_num
        have hconf2 : ∀ c : ℚ, (0 ≤ if c > (h : ℚ) * 0.2 then (0.8 : ℚ) else 0.3) ∧
            (if c > (h : ℚ) * 0.2 then (0.8 : ℚ) else 0.3) ≤ 1 := by
          intro c
          constructor <;> split <;> norm_num
        rcases List.mem_cons.mp hmem with rfl | hmem3
        · refine ⟨hconf _, ?_⟩
          have hhead : (y : ℚ) + 96 * 0.3 ≤ h := by linarith
          exact bboxInRange_div hw0 hh0 (Nat.cast_nonneg x) (by norm_num) hxq
            (Nat.cast_nonneg y) (by norm_num) hhead
        rcases List.mem_cons.mp hmem3 with rfl | hmem4
        · refine ⟨hconf2 _, ?_⟩
          have hbody : ((y : ℚ) + 96 * 0.3) + 96 * 0.7 ≤ h := by linarith
          have hbody0 : (0 : ℚ) ≤ (y : ℚ) + 96 * 0.3 := by positivity
          exact bboxInRange_div hw0 hh0 (Nat.cast_nonneg x) (by norm_num) hxq
            hbody0 (by norm_num) hbody
        · simp at hmem4


theorem detectPerson_inRange (data : List ℕ) (w h : ℕ) {d : Detection}
    (hd : d ∈ detectionJs.detectPerson data w h) : detectionInRange d := by
  unfold detectionJs.detectPerson at hd
  obtain ⟨region, hreg, hmem⟩ := List.mem_flatMap.mp hd
  split at hmem
  case isFalse => simp at hmem
  case isTrue hconf =>
    rw [List.mem_singleton] at hmem
    subst hmem
    unfold detectionJs.findPersonRegions at hreg
    obtain ⟨y, hy, hinner⟩ := List.mem_flatMap.mp hreg
    obtain ⟨x, hx, hmem2⟩ := List.mem_flatMap.mp hinner
    dsimp only at hmem2
    split at hmem2
    case isFalse => simp at hmem2
    case isTrue hscore =>
      rw [List.mem_singleton] at hmem2
      subst hmem2
      have hxb : x < w - 64 := stridePositions_lt (by norm_num) hx
      have hyb : y < h - 64 := stridePositions_lt (by norm_num) hy
      have hxw : x + 64 < w := by omega
      have hyh : y + 64 < h := by omega
      have hwpos : 0 < w := by omega
      have hhpos : 0 < h := by omega
      have hw0 : (0 : ℚ) < (w : ℚ) := by exact_mod_cast hwpos
      have hh0 : (0 : ℚ) < (h : ℚ) := by exact_mod_cast hhpos
      have hsx : ((x : ℚ)) + ((64 : ℕ) : ℚ) ≤ (w : ℚ) := by exact_mod_cast hxw.le
      have hsy : ((y : ℚ)) + ((64 : ℕ) : ℚ) ≤ (h : ℚ) := by exact_mod_cast hyh.le
      obtain ⟨hs1, hs2⟩ := skinTone_bounds
        (detectionJs.extractImageRegion data w h x y 64 64)
      exact ⟨⟨hs1, hs2⟩, bboxInRange_div hw0 hh0 (Nat.cast_nonneg x) (Nat.cast_nonneg 64)
        hsx (Nat.cast_nonneg y) (Nat.cast_nonneg 64) hsy⟩

/-- The range invariant holds for every candidate the four scanners feed
into the assembly stage. -/
theorem candidates_inRange (buf : PixelBuffer) {d : Detection}
    (hd : d ∈ detectionJs.detectPerson buf.data buf.width buf.height ++
      detectionJs.detectHelmets buf.data buf.width buf.height ++
      detectionJs.detectVests buf.data buf.width buf.height ++
      detectionJs.detectFullPPE buf.data buf.width buf.height) : detectionInRange d := by
  rcases List.mem_append.mp hd with h1 | h4
  · rcases List.mem_append.mp h1 with h2 | h3
    · rcases List.mem_append.mp h2 with hp | hh
      · exact detectPerson_inRange _ _ _ hp
      · exact detectHelmets_inRange _ _ _ hh
    · exact detectVests_inRange _ _ _ h3
  · exact detectFullPPE_inRange _ _ _ h4

/- ------------------------------------------------------------------ -/
/- Scorer and hashing lemmas.                                          -/
/- ------------------------------------------------------------------ -/

theorem helmetSpec_conf_mem (rd : Option detectionAlt.RegionData) :
    (helmetScorerSpec rd).confidence ∈ helmetSpecConfidences := by
  cases rd with
  | none => decide
  | some r =>
    unfold helmetScorerSpec
    split
    · decide
    · dsimp only
      split_ifs <;> decide

theorem md5hex_length (s : String) : (detectionJs.md5hex s).length = 32 := by
  unfold detectionJs.md5hex
  show (String.mk _).length = 32
  simp [String.length, List.length_map, List.length_range]

theorem hexChar_mem (n : ℕ) : detectionJs.hexChar n ∈ "0123456789abcdef".data := by
  have h16 : ∀ m, m < 16 → ("0123456789abcdef".data.getD m '0') ∈ "0123456789abcdef".data := by
    decide
  exact h16 (n % 16) (Nat.mod_lt _ (by norm_num))

theorem md5hex_isHex (s : String) : isHexString (detectionJs.md5hex s) := by
  unfold isHexString detectionJs.md5hex
  intro c hc
  obtain ⟨i, _, hi⟩ := List.mem_map.mp hc
  exact hi ▸ hexChar_mem _

/- ------------------------------------------------------------------ -/
/- Claims.                                                             -/
/- ------------------------------------------------------------------ -/

/-- C3: for every candidate list and overlap threshold, each detection
emitted by detection.js's Merger is a member of the input list (label,
confidence, bbox and colour fields exactly equal to that candidate's) and
is a confidence-maximal member of its overlap cluster; in particular the
Merger never produces a unioned bounding box and never increases any
confidence value. -/
theorem C3_merger_keeps_best (l : List Detection) (t : ℚ) (d : Detection)
    (hd : d ∈ detectionJs.mergeOverlappingDetections l t) :
    d ∈ l ∧ ∃ c ∈ detectionJs.clustersOf l t, d ∈ c ∧
      ∀ e ∈ c, e.confidence ≤ d.confidence :=
  ⟨mem_of_mem_merge hd, mergeAux_clusters t l.length l d hd⟩

/-- Witness for C3 at a concrete two-candidate overlap cluster. -/
theorem C3_witness :
    overlapBoxA ∈ detectionJs.mergeOverlappingDetections [overlapBoxA, overlapBoxB] (3/10) ∧
      (overlapBoxA ∈ [overlapBoxA, overlapBoxB] ∧
        ∃ c ∈ detectionJs.clustersOf [overlapBoxA, overlapBoxB] (3/10),
          overlapBoxA ∈ c ∧ ∀ e ∈ c, e.confidence ≤ overlapBoxA.confidence) := by
  have h : overlapBoxA ∈ detectionJs.mergeOverlappingDetections [overlapBoxA, overlapBoxB]
      (3/10) := by decide
  exact ⟨h, C3_merger_keeps_best _ _ _ h⟩

/-- C4 (amended): the alternate variant's Merger sorts the candidate list
descending by confidence before walking it, so its output is invariant
under pre-sorting the list; detection.js's Merger walks the given order
and does not satisfy this (see the counterexample). -/
theorem C4_sorted_merge_invariant (l : List Detection) (t : ℚ) :
    detectionAlt.mergeOverlappingDetections l t =
      detectionAlt.mergeOverlappingDetections (sortByConfidenceDesc l) t := by
  unfold detectionAlt.mergeOverlappingDetections
  rw [sortByConfidenceDesc_idem]

/-- Counterexample for C4 as stated: on a confidence chain A(0.7), B(0.9),
C(0.8) where B overlaps both A and C but A and C do not overlap,
detection.js's Merger emits two boxes on the given order and only one on
the confidence-sorted order, so its output is not that of the sorted
permutation. -/
theorem C4_counterexample :
    detectionJs.mergeOverlappingDetections [chainBoxA, chainBoxB, chainBoxC] (3/10) ≠
      detectionJs.mergeOverlappingDetections
        (sortByConfidenceDesc [chainBoxA, chainBoxB, chainBoxC]) (3/10) := by
  decide

/-- C5 (amended): in the merge walk a later same-label candidate is
consumed exactly when its IoU with the cluster seed is STRICTLY greater
than the class threshold; two same-label boxes whose IoU equals the
threshold exactly are NOT collapsed (both survive). -/
theorem C5_strict_threshold (d1 d2 : Detection) (t : ℚ) (hl : d1.label = d2.label) :
    (detectionJs.mergeOverlappingDetections [d1, d2] t).length = 1 ↔
      detectionJs.calculateOverlap d1.bbox d2.bbox > t := by
  have hbeq : (d1.label == d2.label) = true := beq_iff_eq.mpr hl
  show (detectionJs.mergeAux t 2 [d1, d2]).length = 1 ↔ _
  by_cases hov : detectionJs.calculateOverlap d1.bbox d2.bbox > t
  · have hc : detectionJs.consumes d1 t d2 = true := by
      unfold detectionJs.consumes
      rw [hbeq, decide_eq_true hov]
      rfl
    simp only [detectionJs.mergeAux, List.filter_cons, hc, Bool.not_true,
      Bool.false_eq_true, if_false, if_true, List.filter_nil]
    simpa using hov
  · have hc : detectionJs.consumes d1 t d2 = false := by
      unfold detectionJs.consumes
      rw [decide_eq_false hov]
      rfl
    simp only [detectionJs.mergeAux, List.filter_cons, hc, Bool.not_false,
      Bool.false_eq_true, if_false, if_true, List.filter_nil]
    simpa using hov

/-- Witness for C5 at two overlapping same-label boxes with IoU 1/3 above
the threshold 3/10. -/
theorem C5_witness :
    chainBoxA.label = chainBoxB.label ∧
      ((detectionJs.mergeOverlappingDetections [chainBoxA, chainBoxB] (3/10)).length = 1 ↔
        detectionJs.calculateOverlap chainBoxA.bbox chainBoxB.bbox > 3/10) :=
  ⟨rfl, C5_strict_threshold chainBoxA chainBoxB (3/10) rfl⟩

/-- Counterexample for C5 as stated: two same-label boxes whose IoU equals
the helmet threshold 3/10 exactly are not merged — both survive. -/
theorem C5_counterexample :
    exactIoUBoxA.label = exactIoUBoxB.label ∧
      detectionJs.calculateOverlap exactIoUBoxA.bbox exactIoUBoxB.bbox = 3/10 ∧
      (detectionJs.mergeOverlappingDetections [exactIoUBoxA, exactIoUBoxB] (3/10)).length = 2 := by
  decide

/-- C6: the pipeline is deterministic — two invocations of the analysis on
bit-identical pixel buffers produce identical detection lists and equal
detection-hash strings. -/
theorem C6_determinism (b1 b2 : PixelBuffer) (h : b1 = b2) :
    detectionJs.detectPPEObjects b1 = detectionJs.detectPPEObjects b2 ∧
      detectionJs.generateDetectionHash (detectionJs.detectPPEObjects b1) =
        detectionJs.generateDetectionHash (detectionJs.detectPPEObjects b2) := by
  subst h
  exact ⟨rfl, rfl⟩

/-- Witness for C6 on a concrete one-pixel black buffer. -/
theorem C6_witness :
    (⟨1, 1, [0, 0, 0, 255]⟩ : PixelBuffer) = ⟨1, 1, [0, 0, 0, 255]⟩ ∧
      (detectionJs.detectPPEObjects ⟨1, 1, [0, 0, 0, 255]⟩ =
          detectionJs.detectPPEObjects ⟨1, 1, [0, 0, 0, 255]⟩ ∧
        detectionJs.generateDetectionHash
            (detectionJs.detectPPEObjects ⟨1, 1, [0, 0, 0, 255]⟩) =
          detectionJs.generateDetectionHash
            (detectionJs.detectPPEObjects ⟨1, 1, [0, 0, 0, 255]⟩)) :=
  ⟨rfl, C6_determinism _ _ rfl⟩

/-- C10: the assembly stage only filters, suppresses and reorders — the
output of `filterAndMergeDetections` is a sub-multiset of its input
candidate list (every output detection is element-wise identical to an
input candidate, with multiplicity). -/
theorem C10_output_submultiset (l : List Detection) :
    (↑(detectionJs.filterAndMergeDetections l) : Multiset Detection) ≤
      (↑l : Multiset Detection) := by
  rw [Multiset.coe_le, List.subperm_ext_iff]
  intro x _
  exact filterAndMerge_count_le l x

/-- C1 (amended): the per-class cardinality cap — at most 2 helmets, 2
vests, 1 person, keeping the highest-confidence survivors — is enforced by
the alternate variant's `limitDetectionsPerClass`; detection.js's
`filterAndMergeDetections` applies no such cap (see the counterexample). -/
theorem C1_per_class_cap (l : List Detection) :
    countLabel (detectionAlt.limitDetectionsPerClass l) "helmet" ≤ 2 ∧
    countLabel (detectionAlt.limitDetectionsPerClass l) "vest" ≤ 2 ∧
    countLabel (detectionAlt.limitDetectionsPerClass l) "person" ≤ 1 :=
  ⟨countLabel_limit_le l "helmet", countLabel_limit_le l "vest",
    countLabel_limit_le l "person"⟩

set_option maxRecDepth 2000000 in
set_option maxHeartbeats 40000000 in
/-- Counterexample for C1 as stated: on a concrete 129×2 image with three
separated safety-green blocks, detection.js's pipeline
(`detectPPEObjects`, i.e. the scanners followed by
`filterAndMergeDetections`) returns three helmet detections. -/
theorem C1_counterexample :
    countLabel (detectionJs.detectPPE "three-helmets.jpg" (some threeHelmetBuffer))
      "helmet" = 3 := by
  decide

/-- C2 (amended): on a DecodeFailure detection.js's `analyzeImageForPPE`
returns an empty detection list without propagating the error (the
filename is not consulted); the filename-heuristic fallback exists only in
the alternate variant, whose `fallbackDetection` emits, for a filename
containing "helmet", exactly one helmet detection with confidence 0.75 and
the canonical box (0.2·w, 0.1·h, 0.6·w, 0.4·h). -/
theorem C2_fallback_behavior (imagePath : String) (w h : ℚ)
    (hp : strContains (jsToLowerCase imagePath) "helmet" = true) :
    (detectionAlt.fallbackDetection imagePath w h).filter
        (fun d => d.label == "helmet") =
      [⟨"helmet", 0.75, ⟨w * 0.2, h * 0.1, w * 0.6, h * 0.4⟩, none⟩] ∧
    (detectionJs.analyzeImageForPPE imagePath none).detections = [] := by
  constructor
  · unfold detectionAlt.fallbackDetection
    dsimp only
    rw [if_pos hp, List.filter_append]
    split
    · simp
    · simp
  · rfl

/-- Witness for C2 at the filename "Helmet.jpg" on an 800×600 image. -/
theorem C2_witness :
    strContains (jsToLowerCase "Helmet.jpg") "helmet" = true ∧
      ((detectionAlt.fallbackDetection "Helmet.jpg" 800 600).filter
          (fun d => d.label == "helmet") =
        [⟨"helmet", 0.75, ⟨800 * 0.2, 600 * 0.1, 800 * 0.6, 600 * 0.4⟩, none⟩] ∧
      (detectionJs.analyzeImageForPPE "Helmet.jpg" none).detections = []) := by
  have h : strContains (jsToLowerCase "Helmet.jpg") "helmet" = true := by decide
  exact ⟨h, C2_fallback_behavior "Helmet.jpg" 800 600 h⟩

/-- Counterexample for C2 as stated: detection.js's decode-failure path
with the filename "helmet.jpg" returns no detections at all, not one
helmet detection. -/
theorem C2_counterexample :
    (detectionJs.analyzeImageForPPE "helmet.jpg" none).detections = [] ∧
      countLabel ((detectionJs.analyzeImageForPPE "helmet.jpg" none).detections)
        "helmet" ≠ 1 := by
  decide

/-- C7: every detection the pipeline produces has confidence in [0, 1],
all four bbox fields in [0, 1], and bbox.x + bbox.width ≤ 1.001,
bbox.y + bbox.height ≤ 1.001. -/
theorem C7_range_invariant (buf : PixelBuffer) (d : Detection)
    (hd : d ∈ detectionJs.detectPPEObjects buf) : detectionInRange d := by
  unfold detectionJs.detectPPEObjects at hd
  exact candidates_inRange buf (mem_of_mem_filterAndMerge hd)

set_option maxRecDepth 2000000 in
set_option maxHeartbeats 8000000 in
/-- Witness for C7 on a 33×2 uniform safety-green buffer, whose pipeline
output is a single helmet detection. -/
theorem C7_witness :
    greenDetection ∈ detectionJs.detectPPEObjects greenBuffer ∧
      detectionInRange greenDetection := by
  have h : greenDetection ∈ detectionJs.detectPPEObjects greenBuffer := by decide
  exact ⟨h, C7_range_invariant greenBuffer greenDetection h⟩

/-- C8 (amended): the alternate variant's helmet scorer equals the
reference definition — confidence is the sum of +0.4 for a safety colour,
+0.3 for colour variance below 0.3, +0.25 for roundness above 0.6, +0.15
for edge intensity in (0.3, 0.8) and +0.1 for the region in the top 40
percent, capped at 0.98, accepted exactly when above 0.7; detection.js's
helmet scorer computes a different formula (see the counterexample). -/
theorem C8_alt_scorer_matches_reference (rd : Option detectionAlt.RegionData) :
    detectionAlt.analyzeHelmetRegion rd = helmetScorerSpec rd := by
  cases rd with
  | none => rfl
  | some r =>
    unfold detectionAlt.analyzeHelmetRegion helmetScorerSpec
    split
    · rfl
    · dsimp only
      split_ifs <;> decide

/-- Counterexample for C8 as stated: on a concrete uniform gray region,
detection.js's helmet scorer yields confidence 0.6, a value the reference
gate sums (see `helmetSpecConfidences` and `helmetSpec_conf_mem`) can
never produce. -/
theorem C8_counterexample :
    (detectionJs.analyzeHelmetRegion grayRegion 32).confidence = 3/5 ∧
      (3/5 : ℚ) ∉ helmetSpecConfidences := by
  decide

/-- C9: the DetectionHash is a 32-character hexadecimal digest of a
canonical serialization built per detection from the label, the confidence
rounded to 2 decimal places and the four bbox fields rounded to 3 decimal
places, so any two detection lists agreeing in that rounded canonical form
(in order) hash identically. -/
theorem C9_hash_canonical (ds1 ds2 : List Detection)
    (h : detectionJs.canonicalRep ds1 = detectionJs.canonicalRep ds2) :
    detectionJs.generateDetectionHash ds1 = detectionJs.generateDetectionHash ds2 ∧
      (detectionJs.generateDetectionHash ds1).length = 32 ∧
      isHexString (detectionJs.generateDetectionHash ds1) := by
  refine ⟨?_, md5hex_length _, md5hex_isHex _⟩
  unfold detectionJs.generateDetectionHash detectionJs.jsonOfDetections
  rw [h]

/-- Witness for C9 on two concrete detection lists that differ in raw
confidence and colour but agree after canonical rounding. -/
theorem C9_witness :
    detectionJs.canonicalRep roundedSetA = detectionJs.canonicalRep roundedSetB ∧
      (detectionJs.generateDetectionHash roundedSetA =
          detectionJs.generateDetectionHash roundedSetB ∧
        (detectionJs.generateDetectionHash roundedSetA).length = 32 ∧
        isHexString (detectionJs.generateDetectionHash roundedSetA)) := by
  have h : detectionJs.canonicalRep roundedSetA = detectionJs.canonicalRep roundedSetB := by
    decide
  exact ⟨h, C9_hash_canonical roundedSetA roundedSetB h⟩
